import Mathlib

set_option maxRecDepth 100000

/-!
Verification of `pico-sniff-bus/src/main.cc` (a minimal serial bus sniffer).

The program has two active pieces of code:

* `serialEvent1` (the Capture Handler): invoked by the Arduino runtime
  between `loop()` iterations when bytes are available on `Serial1`.
  It prints `"rx"`, then drains the receive buffer with
  `while (Serial1.available() > 0) Serial.printf(" %02X", Serial1.read());`,
  and finally `Serial.println("h")` (which emits `"h"` then `"\r\n"`).
* `loop()` (the Liveness Scheduler): toggles the LED, `delay(500)`, then
  `Serial.print("\r")` (the heartbeat).

We embed the data path shallowly: the `Serial1` receive buffer is a list of
bytes (`Fin 256`, since a UART read with `available() > 0` yields a value in
0..255); the host sink is the list of characters written to `Serial`.
Arduino's scheduling of `serialEvent1` is cooperative — the core runs
`for(;;){ loop(); serialEventRun(); }` on one core, so one invocation of
`serialEvent1` or one `loop()` iteration is an atomic step of the trace.
Time is logical: only `delay(500)` advances the clock; every other
operation is modelled as instantaneous.
-/

namespace PicoSniffBus

/-- A raw byte delivered by the bus interface (`Serial1.read()` under
`available() > 0` returns a value in 0..255). -/
abbrev Byte := Fin 256

/-- Uppercase hexadecimal digit character for a nibble value, as produced by
C `printf` with conversion `X`: digits `0`..`9` are ASCII 48+n, digits
`A`..`F` are ASCII 55+n. -/
def hexUpperDigit (n : Nat) : Char :=
  if n < 10 then Char.ofNat (48 + n) else Char.ofNat (55 + n)

/-- `printf(" %02X", b)` without the leading space, for a byte value
0..255: exactly two uppercase hex digits, high nibble then low nibble,
zero-padded (width 2 of `%02X`; a byte never needs more than two digits). -/
def hex2 (b : Byte) : List Char :=
  [hexUpperDigit (b.val / 16), hexUpperDigit (b.val % 16)]

/-- The line terminator emitted by Arduino `Serial.println`: CR LF. -/
def lineTerminator : List Char := ['\r', '\n']

/-- `Serial1.available()`: number of bytes currently buffered. -/
def serial1Available (buf : List Byte) : Nat := buf.length

/-- `Serial1.read()`: pops the oldest buffered byte; `none` models the
`-1` result when no data is available. -/
def serial1Read : List Byte → Option (Byte × List Byte)
  | [] => none
  | b :: rest => some (b, rest)

/-- Characters printed by the drain loop
`while (Serial1.available() > 0) Serial.printf(" %02X", Serial1.read());`
as a function of the buffer contents: one leading space and two hex digits
per buffered byte, in arrival order. -/
def drainChars : List Byte → List Char
  | [] => []
  | b :: rest => (' ' :: hex2 b) ++ drainChars rest

/-- Everything `serialEvent1` writes to `Serial` in one invocation whose
buffer holds `buf`: `print("rx")`, the drain loop, `println("h")`. -/
def serialEvent1Chars (buf : List Byte) : List Char :=
  'r' :: 'x' :: (drainChars buf ++ 'h' :: lineTerminator)

/-- Result of running the drain loop instrumented with its interaction
with the bus collaborator. -/
inductive DrainRes where
  /-- loop finished; `out` was printed after `reads` calls to `read()` -/
  | ok (out : List Char) (reads : Nat)
  /-- `Serial1.read()` was invoked while no byte was available -/
  | readFailed
  /-- the step bound was exhausted before the loop condition went false -/
  | outOfFuel
deriving DecidableEq

/-- The drain loop of `serialEvent1`, step-indexed: each iteration checks
`Serial1.available() > 0`, then calls `Serial1.read()` and prints
`" %02X"` of the byte read. `readFailed` marks a read in the
zero-availability state; `outOfFuel` marks running out of the step bound. -/
def drainLoopI : Nat → List Byte → DrainRes
  | 0, _ => .outOfFuel
  | fuel + 1, buf =>
    if serial1Available buf > 0 then
      match serial1Read buf with
      | none => .readFailed
      | some (b, rest) =>
        match drainLoopI fuel rest with
        | .ok out k => .ok ((' ' :: hex2 b) ++ out) (k + 1)
        | e => e
    else .ok [] 0

/-- State of the system: the bus receive buffer, the characters written to
the host sink so far, the LED, and ghost instrumentation (a logical clock
advanced only by `delay(500)`, the clock values at which heartbeats were
emitted, and a count of LED toggles). -/
structure SysState where
  bus : List Byte
  sink : List Char
  led : Bool
  clock : Nat
  beats : List Nat
  toggles : Nat

/-- Atomic steps of the system trace. -/
inductive Ev where
  /-- bytes arrive on the bus and are appended to the receive buffer -/
  | arrive (bs : List Byte)
  /-- the runtime invokes `serialEvent1` (one whole invocation) -/
  | capture
  /-- one whole `loop()` iteration: toggle LED, `delay(500)`, print CR -/
  | tick

/-- The fixed Liveness Scheduler quantum: `delay(500)` milliseconds. -/
def tickQuantum : Nat := 500

/-- One step of the system. `capture` drains the whole buffer and appends
the frame to the sink; `tick` toggles the LED, advances the clock by the
quantum, and appends the single heartbeat character. -/
def step (s : SysState) : Ev → SysState
  | .arrive bs => { s with bus := s.bus ++ bs }
  | .capture => { s with bus := [], sink := s.sink ++ serialEvent1Chars s.bus }
  | .tick =>
    { s with
      led := !s.led
      toggles := s.toggles + 1
      clock := s.clock + tickQuantum
      sink := s.sink ++ ['\r']
      beats := s.beats ++ [s.clock + tickQuantum] }

/-- Run a trace of events from a state. -/
def run : SysState → List Ev → SysState
  | s, [] => s
  | s, e :: tr => run (step s e) tr

/-- The block of characters a single step writes to the sink. -/
def emit (s : SysState) : Ev → List Char
  | .arrive _ => []
  | .capture => serialEvent1Chars s.bus
  | .tick => ['\r']

/-- The blocks written along a trace, in order. -/
def emissions : SysState → List Ev → List (List Char)
  | _, [] => []
  | s, e :: tr => emit s e :: emissions (step s e) tr

/-- Number of `loop()` iterations (scheduler ticks) in a trace. -/
def countTicks : List Ev → Nat
  | [] => 0
  | .tick :: tr => countTicks tr + 1
  | _ :: tr => countTicks tr

/-- The reset state: empty buffer, nothing written, LED off. -/
def initState : SysState := ⟨[], [], false, 0, [], 0⟩

/-- Modelled from the spec (§6 wire format): a two-digit uppercase
hexadecimal digit, drawn from the digit alphabet `0123456789ABCDEF`. -/
def specHexDigit (n : Nat) : Char :=
  "0123456789ABCDEF".data.getD n '0'

/-- Modelled from the spec (§6, §8): `bihex`, the byte value as exactly two
uppercase zero-padded hexadecimal digits. -/
def specByteHex (b : Nat) : List Char :=
  [specHexDigit (b / 16), specHexDigit (b % 16)]

/-- Modelled from the spec (§6, §8): the frame
`"rx" + " b1hex" + ... + " bnhex" + "h"` followed by a line terminator. -/
def specFrame (bs : List Byte) : List Char :=
  "rx".data ++ (bs.map (fun b => ' ' :: specByteHex b.val)).flatten
    ++ "h".data ++ lineTerminator

theorem hex2_eq_spec : ∀ b : Byte, hex2 b = specByteHex b.val := by
  decide

theorem cr_not_mem_hex2 : ∀ b : Byte, '\r' ∉ hex2 b := by
  decide

theorem cr_not_mem_drainChars (bs : List Byte) : '\r' ∉ drainChars bs := by
  induction bs with
  | nil => simp [drainChars]
  | cons b rest ih =>
    simp only [drainChars, List.cons_append, List.mem_cons, List.mem_append]
    intro h
    rcases h with h | h | h
    · exact absurd h (by decide)
    · exact cr_not_mem_hex2 b h
    · exact ih h

theorem drainChars_append (u v : List Byte) :
    drainChars (u ++ v) = drainChars u ++ drainChars v := by
  induction u with
  | nil => simp [drainChars]
  | cons b rest ih => simp [drainChars, ih]

theorem run_sink (tr : List Ev) (s : SysState) :
    (run s tr).sink = s.sink ++ (emissions s tr).flatten := by
  induction tr generalizing s with
  | nil => simp [run, emissions]
  | cons e tr ih =>
    rw [run, emissions, List.flatten_cons, ih]
    cases e <;> simp [step, emit]

theorem emissions_shape (tr : List Ev) (s : SysState) (blk : List Char)
    (hblk : blk ∈ emissions s tr) :
    blk = [] ∨ blk = ['\r'] ∨ ∃ bs, blk = serialEvent1Chars bs := by
  induction tr generalizing s with
  | nil => simp [emissions] at hblk
  | cons e tr ih =>
    rw [emissions, List.mem_cons] at hblk
    rcases hblk with h | h
    · cases e with
      | arrive bs => exact .inl (h.trans rfl)
      | capture => exact .inr (.inr ⟨s.bus, h⟩)
      | tick => exact .inr (.inl h)
    · exact ih _ h

theorem run_clock (tr : List Ev) (s : SysState) :
    (run s tr).clock = s.clock + tickQuantum * countTicks tr := by
  induction tr generalizing s with
  | nil => simp [run, countTicks]
  | cons e tr ih =>
    rw [run, ih]
    cases e <;> simp [step, countTicks] <;> ring

theorem run_beats (tr : List Ev) (s : SysState) :
    (run s tr).beats =
      s.beats ++ (List.range (countTicks tr)).map
        (fun i => s.clock + tickQuantum * (i + 1)) := by
  induction tr generalizing s with
  | nil => simp [run, countTicks]
  | cons e tr ih =>
    rw [run, ih]
    cases e with
    | arrive bs => simp [step, countTicks]
    | capture => simp [step, countTicks]
    | tick =>
      simp only [step, countTicks, List.range_succ_eq_map, List.map_cons,
        List.map_map, List.append_assoc, List.singleton_append]
      have hmap : List.map (fun i => s.clock + tickQuantum + tickQuantum * (i + 1))
            (List.range (countTicks tr))
          = List.map ((fun i => s.clock + tickQuantum * (i + 1)) ∘ Nat.succ)
            (List.range (countTicks tr)) := by
        apply List.map_congr_left
        intro i _
        simp only [Function.comp_apply, Nat.succ_eq_add_one]
        ring
      rw [hmap]
      norm_num

theorem run_toggles (tr : List Ev) (s : SysState) :
    (run s tr).toggles = s.toggles + countTicks tr := by
  induction tr generalizing s with
  | nil => simp [run, countTicks]
  | cons e tr ih =>
    rw [run, ih]
    cases e <;> simp [step, countTicks] <;> omega

theorem drainLoopI_ok (buf : List Byte) (fuel : Nat)
    (hfuel : buf.length < fuel) :
    drainLoopI fuel buf = .ok (drainChars buf) buf.length := by
  induction buf generalizing fuel with
  | nil =>
    obtain ⟨f, rfl⟩ : ∃ f, fuel = f + 1 := ⟨fuel - 1, by omega⟩
    simp [drainLoopI, serial1Available, drainChars]
  | cons b rest ih =>
    obtain ⟨f, rfl⟩ : ∃ f, fuel = f + 1 := ⟨fuel - 1, by omega⟩
    have hrest : rest.length < f := by
      simpa using Nat.lt_of_succ_lt_succ hfuel
    simp [drainLoopI, serial1Available, serial1Read, ih f hrest, drainChars]

theorem drainChars_eq_spec (bs : List Byte) :
    drainChars bs = (bs.map (fun b => ' ' :: specByteHex b.val)).flatten := by
  induction bs with
  | nil => simp [drainChars]
  | cons b rest ih => simp [drainChars, ih, hex2_eq_spec]

theorem drainLoopI_ne_readFailed (fuel : Nat) (buf : List Byte) :
    drainLoopI fuel buf ≠ DrainRes.readFailed := by
  induction fuel generalizing buf with
  | zero => simp [drainLoopI]
  | succ f ih =>
    cases buf with
    | nil => simp [drainLoopI, serial1Available]
    | cons b rest =>
      have := ih rest
      simp only [drainLoopI, serial1Available, List.length_cons,
        Nat.succ_sub_one, serial1Read, gt_iff_lt, Nat.zero_lt_succ, if_true]
      cases h : drainLoopI f rest <;> simp_all

/-- C1: for every sequence of bytes b1..bn available from the bus
interface at one Capture Handler invocation, `serialEvent1` emits exactly
`"rx"` followed by, for each byte in arrival order, one space and that
byte's value as exactly two uppercase zero-padded hexadecimal digits
(0x00 renders as `"00"`, 0xFF as `"FF"`), followed by `"h"` and a line
terminator, and nothing else: the emission equals the spec's wire-format
frame, and the scenario `0x12, 0xAB, 0x00` yields `"rx 12 AB 00h"`. -/
theorem serialEvent1_emits_spec_frame :
    (∀ bs : List Byte, serialEvent1Chars bs = specFrame bs) ∧
    hex2 0 = ['0', '0'] ∧ hex2 255 = ['F', 'F'] ∧
    serialEvent1Chars [18, 171, 0] = "rx 12 AB 00h".data ++ lineTerminator := by
  refine ⟨?_, by decide, by decide, by decide⟩
  intro bs
  have hrx : ("rx".data : List Char) = ['r', 'x'] := rfl
  have hh : ("h".data : List Char) = ['h'] := rfl
  rw [specFrame, ← drainChars_eq_spec, hrx, hh, serialEvent1Chars]
  simp

/-- C2: capture and scheduler steps are atomic (the Arduino runtime calls
`serialEvent1` between `loop()` iterations on a single core), so the sink
is a concatenation of per-step blocks; every block is either empty (an
arrival), the single heartbeat character, or one whole frame; and no
carriage return occurs in a frame's interior between its `"rx"` start
marker and its `"h"` end marker. Hence no heartbeat character is ever
emitted inside an in-progress frame, for any interleaving of events. -/
theorem frames_uninterrupted_by_heartbeat :
    (∀ (s : SysState) (tr : List Ev),
      (run s tr).sink = s.sink ++ (emissions s tr).flatten) ∧
    (∀ (s : SysState) (tr : List Ev) (blk : List Char), blk ∈ emissions s tr →
      blk = [] ∨ blk = ['\r'] ∨ ∃ bs, blk = serialEvent1Chars bs) ∧
    (∀ bs : List Byte, '\r' ∉ drainChars bs) :=
  ⟨fun s tr => run_sink tr s, fun s tr blk h => emissions_shape tr s blk h,
    cr_not_mem_drainChars⟩

/-- C2 witness: the heartbeat block of a one-tick trace is one of the
allowed block shapes, and the interior of a one-byte frame holds no
carriage return. -/
theorem frames_uninterrupted_by_heartbeat_witness :
    ((['\r'] : List Char) = [] ∨ (['\r'] : List Char) = ['\r'] ∨
      ∃ bs, (['\r'] : List Char) = serialEvent1Chars bs) ∧
    '\r' ∉ drainChars [(18 : Byte)] :=
  ⟨frames_uninterrupted_by_heartbeat.2.1 initState [Ev.tick] ['\r']
      (by simp [emissions, emit]),
    frames_uninterrupted_by_heartbeat.2.2 [(18 : Byte)]⟩

/-- C3: along any trace from the reset state — whatever bus arrivals and
capture invocations it interleaves — the logical times of consecutive
heartbeat emissions differ by at most the fixed tick quantum (in the
embedding only `delay(500)` advances the clock, one delay per tick). -/
theorem heartbeat_interval_bounded (tr : List Ev) :
    List.Chain' (fun t u => u ≤ t + tickQuantum) ((run initState tr).beats) := by
  rw [run_beats]
  have hb : initState.beats = [] := rfl
  have hc : initState.clock = 0 := rfl
  rw [hb, hc, List.nil_append, List.chain'_iff_get]
  intro i hi
  simp only [List.get_eq_getElem, List.getElem_map, List.getElem_range,
    tickQuantum]
  omega

/-- C4: a Capture Handler invocation with zero bytes available emits
exactly the empty frame `"rxh"` plus the line terminator, and its drain
loop completes at once with zero reads (it never waits for bytes). -/
theorem empty_capture_wellformed :
    serialEvent1Chars ([] : List Byte) = "rxh".data ++ lineTerminator ∧
    drainLoopI 1 [] = DrainRes.ok [] 0 := by
  constructor
  · decide
  · decide

/-- C5: one capture invocation drains the whole bus buffer — afterwards
`Serial1.available()` is zero — and every byte that was buffered appears
(as its space-prefixed hex pair) inside the emitted frame. -/
theorem capture_drains_all (s : SysState) (b : Byte) (hb : b ∈ s.bus) :
    serial1Available (step s Ev.capture).bus = 0 ∧
    (' ' :: hex2 b) <:+: serialEvent1Chars s.bus := by
  constructor
  · simp [step, serial1Available]
  · obtain ⟨u, v, huv⟩ := List.append_of_mem hb
    refine ⟨'r' :: 'x' :: drainChars u, drainChars v ++ 'h' :: lineTerminator, ?_⟩
    rw [huv]
    simp [serialEvent1Chars, drainChars_append, drainChars]

/-- C5 witness: capturing a one-byte buffer holding 0xAB empties the
buffer and the frame contains `" AB"`. -/
theorem capture_drains_all_witness :
    serial1Available
        (step (⟨[(171 : Byte)], [], false, 0, [], 0⟩ : SysState) Ev.capture).bus = 0 ∧
    (' ' :: hex2 (171 : Byte)) <:+: serialEvent1Chars [(171 : Byte)] :=
  capture_drains_all ⟨[(171 : Byte)], [], false, 0, [], 0⟩ 171 (by decide)

/-- C6: each scheduler tick appends exactly the single character CR
(code point 13, no line feed, nothing else) to the sink, and the number of
heartbeat emissions along any trace equals the number of ticks. -/
theorem heartbeat_is_single_cr :
    (∀ s : SysState, (step s Ev.tick).sink = s.sink ++ ['\r'] ∧
      emit s Ev.tick = ['\r'] ∧ '\r' = Char.ofNat 13) ∧
    (∀ (s : SysState) (tr : List Ev),
      (run s tr).beats.length = s.beats.length + countTicks tr) := by
  refine ⟨fun s => ⟨rfl, rfl, by decide⟩, fun s tr => ?_⟩
  rw [run_beats]
  simp

/-- C7: the indicator is toggled exactly once per scheduler tick, a
capture invocation (and a bus arrival) leaves it untouched, and after a
trace with k ticks the toggle count has grown by exactly k. -/
theorem indicator_toggles_once_per_tick :
    (∀ s : SysState, (step s Ev.tick).led = !s.led ∧
      (step s Ev.tick).toggles = s.toggles + 1) ∧
    (∀ (s : SysState) (bs : List Byte), (step s Ev.capture).led = s.led ∧
      (step s Ev.capture).toggles = s.toggles ∧
      (step s (Ev.arrive bs)).led = s.led) ∧
    (∀ (s : SysState) (tr : List Ev),
      (run s tr).toggles = s.toggles + countTicks tr) :=
  ⟨fun _ => ⟨rfl, rfl⟩, fun _ _ => ⟨rfl, rfl, rfl⟩,
    fun s tr => run_toggles tr s⟩

/-- C8: the Capture Handler keeps no state between invocations — its
emission is a function of the bus buffer alone (two states with equal
buffers emit identical frames), an invocation leaves the buffer empty,
and an immediately following invocation with no new arrivals emits the
empty frame (no byte is ever re-emitted or carried over). -/
theorem capture_retains_no_state :
    (∀ s₁ s₂ : SysState, s₁.bus = s₂.bus →
      emit s₁ Ev.capture = emit s₂ Ev.capture) ∧
    (∀ s : SysState, (step s Ev.capture).bus = []) ∧
    (∀ s : SysState, emit (step s Ev.capture) Ev.capture = serialEvent1Chars []) := by
  refine ⟨fun s₁ s₂ h => ?_, fun _ => rfl, fun _ => rfl⟩
  simp [emit, h]

/-- C8 witness: two states sharing the buffer `[0x05]` but differing in
sink, LED, clock, beats and toggles emit the same frame. -/
theorem capture_retains_no_state_witness :
    emit (⟨[(5 : Byte)], [], false, 0, [], 0⟩ : SysState) Ev.capture =
      emit (⟨[(5 : Byte)], ['\r'], true, 500, [500], 1⟩ : SysState) Ev.capture :=
  capture_retains_no_state.1 _ _ rfl

/-- C9: the drain loop guards every `Serial1.read()` with
`Serial1.available() > 0`, so the read's no-data result is unreachable in
the handler: no step bound and no buffer make the instrumented loop
report a failed read. -/
theorem read_unreachable_on_empty (fuel : Nat) (buf : List Byte) :
    drainLoopI fuel buf ≠ DrainRes.readFailed :=
  drainLoopI_ne_readFailed fuel buf

/-- C9 witness: a concrete run of the instrumented drain loop does not
report a failed read. -/
theorem read_unreachable_on_empty_witness :
    drainLoopI 1 [(3 : Byte)] ≠ DrainRes.readFailed :=
  read_unreachable_on_empty 1 [(3 : Byte)]

/-- C10: every capture invocation terminates when the buffer is finite:
with a step bound one above the available count the drain loop completes,
performing exactly one read per buffered byte; the frame always ends with
the end marker and terminator; and each successful read strictly
decreases the available count (the loop variant). -/
theorem drain_loop_terminates (buf : List Byte) :
    drainLoopI (serial1Available buf + 1) buf =
      DrainRes.ok (drainChars buf) (serial1Available buf) ∧
    ('h' :: lineTerminator) <:+ serialEvent1Chars buf ∧
    (∀ (b : Byte) (rest : List Byte), serial1Read buf = some (b, rest) →
      serial1Available rest < serial1Available buf) := by
  refine ⟨drainLoopI_ok buf _ (by simp [serial1Available]),
    ⟨'r' :: 'x' :: drainChars buf, by simp [serialEvent1Chars]⟩, ?_⟩
  intro b rest h
  cases buf with
  | nil => simp [serial1Read] at h
  | cons a t =>
    simp only [serial1Read, Option.some.injEq, Prod.mk.injEq] at h
    obtain ⟨rfl, rfl⟩ := h
    simp [serial1Available]

/-- C10 witness: draining the one-byte buffer `[0x07]` completes with one
read, and the read from it strictly decreases the available count. -/
theorem drain_loop_terminates_witness :
    drainLoopI (serial1Available [(7 : Byte)] + 1) [(7 : Byte)] =
      DrainRes.ok (drainChars [(7 : Byte)]) (serial1Available [(7 : Byte)]) ∧
    serial1Available ([] : List Byte) < serial1Available [(7 : Byte)] :=
  ⟨(drain_loop_terminates [(7 : Byte)]).1,
    (drain_loop_terminates [(7 : Byte)]).2.2 7 [] rfl⟩

end PicoSniffBus
